import Mathlib

/-!
Verification development for the jop command-line JSON processor.

Part 1 embeds the command-line utilities found in lib/cliutils.js
(operation-pipeline extraction from the raw argument vector, the
expression lookup with its destructive array shift, and the
print-error-and-exit outcome of the entry script's end handler).

Part 2 models the pipeline processor (lib/processor.js, whose source is
not part of this snapshot) from the specification: the JSON value type,
the operation registry, the left-to-right fold of operations over the
parsed value, and the structured error kinds.
-/

namespace Jop

/-- A JavaScript value as it appears in the yargs-parsed argument object:
absent (undefined), boolean, number, string, or an array of values
(a repeated option collects its arguments into an array). -/
inductive JSVal where
  | undef : JSVal
  | bool (b : Bool) : JSVal
  | num (n : Int) : JSVal
  | str (s : String) : JSVal
  | arr (elems : List JSVal) : JSVal
deriving Repr

/-- The yargs argument object, as a mutable association from option name to
value. A name not present maps to undefined. -/
abbrev Argv := List (String × JSVal)

/-- Property read on the argument object: argv[opt]. -/
def argvGet : Argv → String → JSVal
  | [], _ => .undef
  | (k, v) :: rest, key => if k = key then v else argvGet rest key

/-- Property write on the argument object (in-place mutation of the binding,
used to model the destructive Array.prototype.shift in expression()). -/
def argvSet : Argv → String → JSVal → Argv
  | [], key, v => [(key, v)]
  | (k, w) :: rest, key, v =>
    if k = key then (k, v) :: rest else (k, w) :: argvSet rest key v

/-- JavaScript falsiness of an argument value: undefined, false, 0 and the
empty string are falsy; every array (empty included) is truthy. -/
def jsFalsy : JSVal → Bool
  | .undef => true
  | .bool b => !b
  | .num n => n == 0
  | .str s => s == ""
  | .arr _ => false

/-- expression(opt) from lib/cliutils.js:
reads argv[opt]; returns false when the value is falsy or is literally
true (boolean flags); when the value is an array (the option was repeated)
it shifts the array in place and returns the removed first element
(undefined when the array is already empty); otherwise returns the value.
The returned pair is (result, argument object after the mutation). -/
def expression (argv : Argv) (opt : String) : JSVal × Argv :=
  let expr := argvGet argv opt
  if jsFalsy expr then (.bool false, argv)
  else
    match expr with
    | .bool true => (.bool false, argv)
    | .arr [] => (.undef, argv)
    | .arr (e :: rest) => (e, argvSet argv opt (.arr rest))
    | v => (v, argv)

/-- One entry of the extracted pipeline: {opt, expr} in extractOperations. -/
structure Descriptor where
  opt : String
  expr : JSVal
deriving Repr

/-- val.replace(regex all-dashes, empty string): delete every dash character. -/
def stripDashes (s : String) : String :=
  String.mk (s.data.filter (fun c => c ≠ '-'))

/-- val.indexOf(\x22-\x22) == 0: the token begins with a dash. -/
def isOptionToken (s : String) : Bool :=
  match s.data with
  | [] => false
  | c :: _ => c = '-'

/-- extractOperations from lib/cliutils.js: walk the raw argument vector in
order; every token beginning with a dash becomes a descriptor whose name is
the token with all dashes removed and whose expression is obtained (and
possibly consumed from a shared array) via expression(). The argument
object is threaded through because expression() mutates it. -/
def extractOperations : List String → Argv → List Descriptor × Argv
  | [], argv => ([], argv)
  | tok :: rest, argv =>
    if isOptionToken tok then
      let opt := stripDashes tok
      let (ex, argv1) := expression argv opt
      let (ds, argv2) := extractOperations rest argv1
      (⟨opt, ex⟩ :: ds, argv2)
    else
      extractOperations rest argv

/-!
Part 2: the pipeline processor. Modelled from the spec: lib/processor.js
(processContent and the operation implementations) is not part of this
source snapshot; the definitions below follow the specification of the
data model, the operation registry, and the fold.
-/

/-- The JSON value flowing through the pipeline: null, boolean, number,
string, ordered sequence, or mapping with insertion order preserved.
Numbers are modelled as integers. -/
inductive Value where
  | null : Value
  | bool (b : Bool) : Value
  | num (n : Int) : Value
  | str (s : String) : Value
  | arr (items : List Value) : Value
  | obj (fields : List (String × Value)) : Value
deriving Repr

/-- The structured error kinds raised by the core. -/
inductive Err where
  | parseError (msg : String)
  | unknownOperation (name : String)
  | expressionError (op : String) (src : String)
  | typeMismatch (op : String)
  | argumentError (op : String)
deriving Repr, DecidableEq

/-- Modelled from the spec: the expression evaluator and the randomness
source are external capabilities injected into the core. eval receives the
expression source, the current item and the current key or index; evalOut
is the transform variant that returns the per-item output accumulator
after evaluating the expression for its effect on it; pick supplies the
random choices used by sample. -/
structure Env where
  eval : String → Value → Value → Except Err Value
  evalOut : String → Value → Value → Except Err Value
  pick : Nat → Nat

/-- JavaScript truthiness of a pipeline value. -/
def truthy : Value → Bool
  | .null => false
  | .bool b => b
  | .num n => n != 0
  | .str s => s != ""
  | .arr _ => true
  | .obj _ => true

mutual

/-- String form of a value when used as a mapping key (JavaScript String
conversion: arrays join their elements with commas, objects collapse). -/
def toKeyString : Value → String
  | .null => "null"
  | .bool true => "true"
  | .bool false => "false"
  | .num n => toString n
  | .str s => s
  | .arr items => keyStringList items
  | .obj _ => "[object Object]"

/-- Comma-joined rendering of a list of values (Array.prototype.toString). -/
def keyStringList : List Value → String
  | [] => ""
  | [x] => toKeyString x
  | x :: y :: rest => toKeyString x ++ "," ++ keyStringList (y :: rest)

end

/-- Read a field from a mapping; null when the key is absent (the prop
policy chosen in the spec). -/
def getField : List (String × Value) → String → Value
  | [], _ => .null
  | (k, v) :: rest, key => if k = key then v else getField rest key

/-- Numeric content of an all-digits expression string (the argument
parser hands numeric flag arguments over as decimal numerals). -/
def toNatDigits (s : String) : Option Nat :=
  match s.data with
  | [] => none
  | ds =>
    if ds.all (fun c => c.isDigit) then
      some (ds.foldl (fun acc c => acc * 10 + (c.toNat - 48)) 0)
    else none

/-- Numeric argument of head, tail and sample: taken from the expression
text, or the operation's default when no expression was given; a
non-numeric expression is an ArgumentError. -/
def opSize (op : String) (dflt : Nat) : Option String → Except Err Nat
  | none => .ok dflt
  | some s =>
    match toNatDigits s with
    | some n => .ok n
    | none => .error (.argumentError op)

/-- Evaluate the expression once per element, binding the element as the
current item and its position as the key; returns the (element, result)
pairs in order, or the first evaluation failure. -/
def evalAll (env : Env) (e : String) : List Value → Nat → Except Err (List (Value × Value))
  | [], _ => .ok []
  | x :: rest, i =>
    match env.eval e x (.num i) with
    | .error er => .error er
    | .ok r =>
      match evalAll env e rest (i + 1) with
      | .error er => .error er
      | .ok ps => .ok ((x, r) :: ps)

/-- Require every expression result to be numeric (min and max compare
numerically); a non-numeric result is a TypeMismatchError for the
operation. -/
def numKeys (op : String) : List (Value × Value) → Except Err (List (Value × Int))
  | [] => .ok []
  | (x, .num n) :: rest =>
    match numKeys op rest with
    | .error er => .error er
    | .ok ps => .ok ((x, n) :: ps)
  | (_, _) :: _ => .error (.typeMismatch op)

/-- Left fold selecting the best element: the current best is replaced only
when a strictly better key appears, so ties keep the earliest element. -/
def selectBy (better : Int → Int → Bool) : (Value × Int) → List (Value × Int) → Value × Int
  | best, [] => best
  | best, p :: rest => selectBy better (if better p.2 best.2 then p else best) rest

/-- An operation implementation: current value and optional expression to
next value (none models the expression-or-false boundary value false). -/
abbrev Operation := Env → Value → Option String → Except Err Value

/-- count: element count of a sequence or mapping. -/
def countOp : Operation := fun _ v _ =>
  match v with
  | .arr items => .ok (.num items.length)
  | .obj fields => .ok (.num fields.length)
  | _ => .error (.typeMismatch "count")

/-- head: the first N elements of a sequence, N from the expression or 5. -/
def headOp : Operation := fun _ v e =>
  match v with
  | .arr items =>
    match opSize "head" 5 e with
    | .error er => .error er
    | .ok n => .ok (.arr (items.take n))
  | _ => .error (.typeMismatch "head")

/-- tail: the last N elements of a sequence, N from the expression or 5. -/
def tailOp : Operation := fun _ v e =>
  match v with
  | .arr items =>
    match opSize "tail" 5 e with
    | .error er => .error er
    | .ok n => .ok (.arr (items.drop (items.length - n)))
  | _ => .error (.typeMismatch "tail")

/-- Draw n elements without replacement: at each step remove the element at
a position chosen by the randomness source and keep drawing from the rest. -/
def sampleTake (pick : Nat → Nat) : Nat → List Value → List Value
  | 0, _ => []
  | _ + 1, [] => []
  | k + 1, x :: xs =>
    (x :: xs).getD (pick k % (x :: xs).length) x
      :: sampleTake pick k ((x :: xs).eraseIdx (pick k % (x :: xs).length))

/-- sample: N elements chosen at random without replacement, N from the
expression or 2; ArgumentError when N exceeds the population size. -/
def sampleOp : Operation := fun env v e =>
  match v with
  | .arr items =>
    match opSize "sample" 2 e with
    | .error er => .error er
    | .ok n =>
      if n > items.length then .error (.argumentError "sample")
      else .ok (.arr (sampleTake env.pick n items))
  | _ => .error (.typeMismatch "sample")

/-- Strictly-smaller test on keys (min replaces its best on this). -/
def ltKey (a b : Int) : Bool := decide (a < b)

/-- Strictly-larger test on keys (max replaces its best on this). -/
def gtKey (a b : Int) : Bool := decide (b < a)

/-- min and max: the element whose expression result is numerically
smallest (respectively largest), ties broken by first occurrence. -/
def minmaxOp (isMin : Bool) : Operation := fun env v e =>
  let op := if isMin then "min" else "max"
  match v, e with
  | .arr items, some src =>
    match evalAll env src items 0 with
    | .error er => .error er
    | .ok pairs =>
      match numKeys op pairs with
      | .error er => .error er
      | .ok [] => .error (.argumentError op)
      | .ok (k0 :: ks) =>
        .ok (selectBy (if isMin then ltKey else gtKey) k0 ks).1
  | .arr _, none => .error (.argumentError op)
  | _, _ => .error (.typeMismatch op)

/-- find: the first element whose expression result is truthy, null when
none matches. -/
def findOp : Operation := fun env v e =>
  match v, e with
  | .arr items, some src =>
    match evalAll env src items 0 with
    | .error er => .error er
    | .ok pairs =>
      match pairs.find? (fun p => truthy p.2) with
      | some p => .ok p.1
      | none => .ok .null
  | .arr _, none => .error (.argumentError "find")
  | _, _ => .error (.typeMismatch "find")

/-- findall: every element whose expression result is truthy, in order. -/
def findallOp : Operation := fun env v e =>
  match v, e with
  | .arr items, some src =>
    match evalAll env src items 0 with
    | .error er => .error er
    | .ok pairs => .ok (.arr ((pairs.filter (fun p => truthy p.2)).map (fun p => p.1)))
  | .arr _, none => .error (.argumentError "findall")
  | _, _ => .error (.typeMismatch "findall")

/-- Position of the first truthy expression result, or -1. -/
def firstIdx : List (Value × Value) → Nat → Int
  | [], _ => -1
  | p :: rest, i => if truthy p.2 then i else firstIdx rest (i + 1)

/-- Position of the last truthy expression result, or -1. -/
def lastIdx : List (Value × Value) → Nat → Int → Int
  | [], _, acc => acc
  | p :: rest, i, acc => lastIdx rest (i + 1) (if truthy p.2 then i else acc)

/-- indexof and lastindexof: index of the first (respectively last) element
whose expression result is truthy, or -1 when none matches. -/
def indexOp (isLast : Bool) : Operation := fun env v e =>
  let op := if isLast then "lastindexof" else "indexof"
  match v, e with
  | .arr items, some src =>
    match evalAll env src items 0 with
    | .error er => .error er
    | .ok pairs => .ok (.num (if isLast then lastIdx pairs 0 (-1) else firstIdx pairs 0))
  | .arr _, none => .error (.argumentError op)
  | _, _ => .error (.typeMismatch op)

/-- Per-element property projection for collect: each element must be a
mapping; the named property is read from it (null when absent). -/
def collectFields (name : String) : List Value → Except Err (List Value)
  | [] => .ok []
  | .obj fields :: rest =>
    match collectFields name rest with
    | .error er => .error er
    | .ok vs => .ok (getField fields name :: vs)
  | _ :: _ => .error (.typeMismatch "collect")

/-- collect: the named property's value for each element of a sequence of
mappings (or for each value of a mapping); property name = expression. -/
def collectOp : Operation := fun _ v e =>
  match v, e with
  | .arr items, some name =>
    match collectFields name items with
    | .error er => .error er
    | .ok vs => .ok (.arr vs)
  | .obj fields, some name =>
    match collectFields name (fields.map (fun f => f.2)) with
    | .error er => .error er
    | .ok vs => .ok (.arr vs)
  | .arr _, none => .error (.argumentError "collect")
  | .obj _, none => .error (.argumentError "collect")
  | _, _ => .error (.typeMismatch "collect")

/-- prop: the value at the given key of a mapping, null when absent. -/
def propOp : Operation := fun _ v e =>
  match v, e with
  | .obj fields, some name => .ok (getField fields name)
  | .obj _, none => .error (.argumentError "prop")
  | _, _ => .error (.typeMismatch "prop")

/-- keys: the mapping's keys as a sequence of strings. -/
def keysOp : Operation := fun _ v _ =>
  match v with
  | .obj fields => .ok (.arr (fields.map (fun f => .str f.1)))
  | _ => .error (.typeMismatch "keys")

/-- values: the mapping's values as a sequence. -/
def valuesOp : Operation := fun _ v _ =>
  match v with
  | .obj fields => .ok (.arr (fields.map (fun f => f.2)))
  | _ => .error (.typeMismatch "values")

/-- Append an element under its group key, creating the group at the end
on first sight so that first-seen order of keys is preserved. -/
def insertGroup : List (String × List Value) → String → Value → List (String × List Value)
  | [], k, v => [(k, [v])]
  | (k', vs) :: rest, k, v =>
    if k' = k then (k', vs ++ [v]) :: rest else (k', vs) :: insertGroup rest k v

/-- Fold the (element, expression result) pairs into groups keyed by the
string form of the result. -/
def groupPairs : List (Value × Value) → List (String × List Value) → List (String × List Value)
  | [], acc => acc
  | p :: rest, acc => groupPairs rest (insertGroup acc (toKeyString p.2) p.1)

/-- group and groupby: mapping from expression result to the sequence of
matching elements, preserving first-seen order. -/
def groupbyOp : Operation := fun env v e =>
  match v, e with
  | .arr items, some src =>
    match evalAll env src items 0 with
    | .error er => .error er
    | .ok pairs =>
      .ok (.obj ((groupPairs pairs []).map (fun g => (g.1, Value.arr g.2))))
  | .arr _, none => .error (.argumentError "groupby")
  | _, _ => .error (.typeMismatch "groupby")

/-- countby: mapping from expression result to the number of matching
elements. -/
def countbyOp : Operation := fun env v e =>
  match v, e with
  | .arr items, some src =>
    match evalAll env src items 0 with
    | .error er => .error er
    | .ok pairs =>
      .ok (.obj ((groupPairs pairs []).map (fun g => (g.1, Value.num g.2.length))))
  | .arr _, none => .error (.argumentError "countby")
  | _, _ => .error (.typeMismatch "countby")

/-- Rank of a value's shape, used for the natural ordering across shapes. -/
def Value.rank : Value → Nat
  | .null => 0
  | .bool _ => 1
  | .num _ => 2
  | .str _ => 3
  | .arr _ => 4
  | .obj _ => 5

/-- Natural ordering of values: numbers and strings compare within their
shape, shapes otherwise compare by rank. -/
def valueLe : Value → Value → Bool
  | .num a, .num b => a ≤ b
  | .str a, .str b => a ≤ b
  | .bool a, .bool b => !a || b
  | a, b => a.rank ≤ b.rank

/-- Stable insertion into a sorted list: an incoming element passes an
equal element never, so earlier elements stay first. -/
def insertLe (le : α → α → Bool) (x : α) : List α → List α
  | [] => [x]
  | y :: ys => if le x y then x :: y :: ys else y :: insertLe le x ys

/-- Stable insertion sort. -/
def sortLe (le : α → α → Bool) : List α → List α
  | [] => []
  | x :: xs => insertLe le x (sortLe le xs)

/-- s and sortby: elements sorted ascending by expression result (stable);
without an expression, by the natural ordering of the elements. -/
def sortbyOp : Operation := fun env v e =>
  match v, e with
  | .arr items, none => .ok (.arr (sortLe valueLe items))
  | .arr items, some src =>
    match evalAll env src items 0 with
    | .error er => .error er
    | .ok pairs =>
      .ok (.arr ((sortLe (fun p q => valueLe p.2 q.2) pairs).map (fun p => p.1)))
  | _, _ => .error (.typeMismatch "sortby")

/-- Evaluate the transform expression per element for its effect on the
output accumulator and collect the accumulator values in order. -/
def transformList (env : Env) (src : String) : List (Value × Value) → Except Err (List Value)
  | [] => .ok []
  | (x, key) :: rest =>
    match env.evalOut src x key with
    | .error er => .error er
    | .ok out =>
      match transformList env src rest with
      | .error er => .error er
      | .ok vs => .ok (out :: vs)

/-- Pair every element with its index key. -/
def withIndexKeys (items : List Value) (i : Nat) : List (Value × Value) :=
  match items with
  | [] => []
  | x :: rest => (x, .num i) :: withIndexKeys rest (i + 1)

/-- t and transform: for each element the expression is evaluated with a
fresh output accumulator bound; the accumulator values form the result
sequence. A mapping iterates its entries with the key bound; a scalar is
treated as a single element. -/
def transformOp : Operation := fun env v e =>
  match v, e with
  | .arr items, some src =>
    match transformList env src (withIndexKeys items 0) with
    | .error er => .error er
    | .ok vs => .ok (.arr vs)
  | .obj fields, some src =>
    match transformList env src (fields.map (fun f => (f.2, Value.str f.1))) with
    | .error er => .error er
    | .ok vs => .ok (.arr vs)
  | w, some src =>
    match transformList env src [(w, .num 0)] with
    | .error er => .error er
    | .ok vs => .ok (.arr vs)
  | _, none => .error (.argumentError "transform")

/-- The operation registry: operation name (short names included) to
implementation; names outside the registry are unknown operations. -/
def lookupOp : String → Option Operation
  | "count" => some countOp
  | "c" => some countOp
  | "countby" => some countbyOp
  | "f" => some findallOp
  | "findall" => some findallOp
  | "find" => some findOp
  | "g" => some groupbyOp
  | "groupby" => some groupbyOp
  | "indexof" => some (indexOp false)
  | "lastindexof" => some (indexOp true)
  | "collect" => some collectOp
  | "min" => some (minmaxOp true)
  | "max" => some (minmaxOp false)
  | "head" => some headOp
  | "s" => some sortbyOp
  | "sortby" => some sortbyOp
  | "sample" => some sampleOp
  | "t" => some transformOp
  | "transform" => some transformOp
  | "tail" => some tailOp
  | "prop" => some propOp
  | "keys" => some keysOp
  | "values" => some valuesOp
  | _ => none

/-- JSON whitespace. -/
def isWs (c : Char) : Bool :=
  c = ' ' || c = '\n' || c = '\t' || c = '\r'

/-- Drop leading whitespace. -/
def skipWs : List Char → List Char
  | [] => []
  | c :: rest => if isWs c then skipWs rest else c :: rest

/-- Body of a JSON string after its opening quote, with the common escape
sequences; yields the string and the characters after the closing quote. -/
def stringChars : List Char → List Char → Except Err (String × List Char)
  | [], _ => .error (.parseError "unterminated string")
  | '"' :: rest, acc => .ok (String.mk acc.reverse, rest)
  | '\\' :: e :: rest, acc =>
    match e with
    | '"' => stringChars rest ('"' :: acc)
    | '\\' => stringChars rest ('\\' :: acc)
    | '/' => stringChars rest ('/' :: acc)
    | 'n' => stringChars rest ('\n' :: acc)
    | 't' => stringChars rest ('\t' :: acc)
    | 'r' => stringChars rest ('\r' :: acc)
    | _ => .error (.parseError "unsupported escape")
  | ['\\'], _ => .error (.parseError "unterminated string")
  | c :: rest, acc => stringChars rest (c :: acc)

/-- Longest leading run of digits. -/
def spanDigits : List Char → List Char × List Char
  | [] => ([], [])
  | c :: rest =>
    if c.isDigit then
      let (ds, r) := spanDigits rest
      (c :: ds, r)
    else ([], c :: rest)

/-- Numeric value of a digit run. -/
def digitsVal (ds : List Char) : Nat :=
  ds.foldl (fun acc c => acc * 10 + (c.toNat - 48)) 0

/-- An integer literal (fractions and exponents are outside this model of
the JSON number grammar). -/
def intNum (neg : Bool) (cs : List Char) : Except Err (Value × List Char) :=
  match spanDigits cs with
  | ([], _) => .error (.parseError "malformed number")
  | (ds, rest) =>
    match rest with
    | '.' :: _ => .error (.parseError "unsupported number form")
    | 'e' :: _ => .error (.parseError "unsupported number form")
    | 'E' :: _ => .error (.parseError "unsupported number form")
    | _ =>
      let n : Int := digitsVal ds
      .ok (.num (if neg then -n else n), rest)

mutual

/-- Modelled from the spec: the JSON parsing boundary (JSON.parse), as a
recursive-descent reader. The fuel argument bounds the recursion; it never
runs out on inputs the grammar accepts (each recursive call first consumes
at least one character). -/
def parseVal : Nat → List Char → Except Err (Value × List Char)
  | 0, _ => .error (.parseError "input exhausted the reader")
  | fuel + 1, cs =>
    match skipWs cs with
    | [] => .error (.parseError "unexpected end of input")
    | 'n' :: 'u' :: 'l' :: 'l' :: rest => .ok (.null, rest)
    | 't' :: 'r' :: 'u' :: 'e' :: rest => .ok (.bool true, rest)
    | 'f' :: 'a' :: 'l' :: 's' :: 'e' :: rest => .ok (.bool false, rest)
    | '"' :: rest =>
      match stringChars rest [] with
      | .error er => .error er
      | .ok (s, rest1) => .ok (.str s, rest1)
    | '-' :: rest => intNum true rest
    | '[' :: rest =>
      match skipWs rest with
      | ']' :: rest1 => .ok (.arr [], rest1)
      | cs1 =>
        match parseVal fuel cs1 with
        | .error er => .error er
        | .ok (v, rest1) => arrRest fuel rest1 [v]
    | '{' :: rest =>
      match skipWs rest with
      | '}' :: rest1 => .ok (.obj [], rest1)
      | cs1 => objFields fuel cs1 []
    | c :: rest =>
      if c.isDigit then intNum false (c :: rest)
      else .error (.parseError "unexpected character")

/-- Elements of an array after the first one. -/
def arrRest : Nat → List Char → List Value → Except Err (Value × List Char)
  | 0, _, _ => .error (.parseError "input exhausted the reader")
  | fuel + 1, cs, acc =>
    match skipWs cs with
    | ',' :: rest =>
      match parseVal fuel rest with
      | .error er => .error er
      | .ok (v, rest1) => arrRest fuel rest1 (acc ++ [v])
    | ']' :: rest => .ok (.arr acc, rest)
    | _ => .error (.parseError "expected comma or closing bracket")

/-- Key-value members of an object. -/
def objFields : Nat → List Char → List (String × Value) → Except Err (Value × List Char)
  | 0, _, _ => .error (.parseError "input exhausted the reader")
  | fuel + 1, cs, acc =>
    match skipWs cs with
    | '"' :: rest =>
      match stringChars rest [] with
      | .error er => .error er
      | .ok (k, rest1) =>
        match skipWs rest1 with
        | ':' :: rest2 =>
          match parseVal fuel rest2 with
          | .error er => .error er
          | .ok (v, rest3) =>
            match skipWs rest3 with
            | ',' :: rest4 => objFields fuel rest4 (acc ++ [(k, v)])
            | '}' :: rest4 => .ok (.obj (acc ++ [(k, v)]), rest4)
            | _ => .error (.parseError "expected comma or closing brace")
        | _ => .error (.parseError "expected colon")
    | _ => .error (.parseError "expected string key")

end

/-- Parse a whole JSON document: one value and nothing but whitespace
after it. -/
def parseJson (text : String) : Except Err Value :=
  match parseVal (text.length + 1) text.data with
  | .error er => .error er
  | .ok (v, rest) =>
    match skipWs rest with
    | [] => .ok v
    | _ => .error (.parseError "unexpected trailing characters")

/-- An operation descriptor handed to the processor: name and expression,
none standing for the boundary value false (no expression given). -/
structure OpDesc where
  name : String
  expr : Option String
deriving Repr, DecidableEq

/-- One fold step: look the operation up in the registry (an unknown name
is an UnknownOperationError) and apply it to the current state. -/
def applyOp (env : Env) (st : Value) (d : OpDesc) : Except Err Value :=
  match lookupOp d.name with
  | none => .error (.unknownOperation d.name)
  | some f => f env st d.expr

/-- The left-to-right fold of the operation list over the pipeline state;
the first failure is terminal. -/
def runPipeline (env : Env) : Value → List OpDesc → Except Err Value
  | st, [] => .ok st
  | st, d :: rest =>
    match applyOp env st d with
    | .error er => .error er
    | .ok st1 => runPipeline env st1 rest

/-- Modelled from the spec: processContent of lib/processor.js (absent
from this snapshot) parses the input text and folds the operations over
the parsed value. The debug flag only mirrors intermediate states to a
diagnostic channel and has no bearing on the returned value. -/
def processContent (env : Env) (jsonText : String) (ops : List OpDesc) (debug : Bool) : Except Err Value :=
  match parseJson jsonText with
  | .error er => .error er
  | .ok v => runPipeline env v ops

/-- Message of an error, as the caller prints it (Error.prototype.toString
style: kind and message). -/
def Err.toMessage : Err → String
  | .parseError m => "SyntaxError: " ++ m
  | .unknownOperation n => "UnknownOperationError: " ++ n
  | .expressionError op src => "ExpressionError: " ++ op ++ ": " ++ src
  | .typeMismatch op => "TypeMismatchError: " ++ op
  | .argumentError op => "ArgumentError: " ++ op

/-- Observable outcome of the entry script's end handler: the value handed
to printJson on standard output (if any), the message written to the error
channel (if any), and the process exit code. -/
structure RunOutcome where
  printed : Option Value
  errorMsg : Option String
  exitCode : Nat
deriving Repr

/-- The end handler of the entry script: run processContent over the
accumulated input and the extracted pipeline; on success print the result
value, on failure print the error once and exit with status 1
(printErrorAndExit in lib/cliutils.js). -/
def onEnd (env : Env) (jsonContent : String) (pipeline : List OpDesc) (debug : Bool) : RunOutcome :=
  match processContent env jsonContent pipeline debug with
  | .ok out => { printed := some out, errorMsg := none, exitCode := 0 }
  | .error er => { printed := none, errorMsg := some er.toMessage, exitCode := 1 }

/-- A concrete environment for instantiating the theorems on closed
inputs: the expression evaluates to the current item itself and the
randomness source always picks position 0. -/
def envId : Env :=
  { eval := fun _ v _ => .ok v, evalOut := fun _ v _ => .ok v, pick := fun _ => 0 }

/-!
Theorems. First the argument-extraction side (lib/cliutils.js), then the
pipeline processor.
-/

theorem argvGet_argvSet (argv : Argv) (k o : String) (v : JSVal) :
    argvGet (argvSet argv k v) o = if k = o then v else argvGet argv o := by
  induction argv with
  | nil => simp [argvSet, argvGet]
  | cons p rest ih =>
    obtain ⟨k1, w⟩ := p
    by_cases hk : k1 = k
    · subst hk
      by_cases ho : k1 = o <;> simp [argvSet, argvGet, ho]
    · by_cases ho : k1 = o
      · subst ho
        have : ¬ k = k1 := fun h => hk h.symm
        simp [argvSet, argvGet, hk, this]
      · simp [argvSet, argvGet, hk, ho, ih]

theorem expression_snd_get (argv : Argv) (opt o : String) (h : opt ≠ o) :
    argvGet (expression argv opt).2 o = argvGet argv o := by
  simp only [expression]
  cases hv : argvGet argv opt with
  | undef => simp [jsFalsy]
  | bool b => cases b <;> simp [jsFalsy]
  | num n => by_cases h0 : n = 0 <;> simp [jsFalsy, h0]
  | str s => by_cases h0 : s = "" <;> simp [jsFalsy, h0]
  | arr es =>
    cases es with
    | nil => simp [jsFalsy]
    | cons e rest => simp [jsFalsy, argvGet_argvSet, h]

theorem extractOperations_names (toks : List String) : ∀ argv : Argv,
    ((extractOperations toks argv).1).map Descriptor.opt
      = (toks.filter (fun t => isOptionToken t)).map stripDashes := by
  induction toks with
  | nil => intro argv; rfl
  | cons tok rest ih =>
    intro argv
    by_cases ht : isOptionToken tok = true
    · cases hE : expression argv (stripDashes tok) with
      | mk ex argv1 => simp [extractOperations, ht, hE, List.filter_cons, ih argv1]
    · simp [extractOperations, ht, List.filter_cons, ih argv]

/-- C9: pipeline extraction turns every dash-initial command-line token
into a descriptor named by the dash-stripped token; in particular the
pretty, debug and help flags and a negative-number token such as -5 reach
the pipeline as descriptors with expression false. -/
theorem extractOperations_dash_tokens :
    (∀ (toks : List String) (argv : Argv),
        ((extractOperations toks argv).1).map Descriptor.opt
          = (toks.filter (fun t => isOptionToken t)).map stripDashes) ∧
    (extractOperations ["node", "jop", "-p", "-d", "-h", "-5", "people.json"]
          [("p", .bool true), ("pretty", .bool true), ("d", .bool true), ("h", .bool true)]).1
      = [⟨"p", .bool false⟩, ⟨"d", .bool false⟩, ⟨"h", .bool false⟩, ⟨"5", .bool false⟩] :=
  ⟨extractOperations_names, rfl⟩

/-- C10: pipeline extraction is not idempotent when an operation flag is
repeated: the first pass over the argument vector shifts the shared array
of arguments, so a second pass on the resulting state binds the same
occurrences to missing expressions. -/
theorem pipeline_second_call_shifted :
    (extractOperations ["node", "jop", "-f", "a", "-f", "b"]
        [("f", JSVal.arr [.str "a", .str "b"])]).1
      = [⟨"f", .str "a"⟩, ⟨"f", .str "b"⟩] ∧
    (extractOperations ["node", "jop", "-f", "a", "-f", "b"]
        (extractOperations ["node", "jop", "-f", "a", "-f", "b"]
          [("f", JSVal.arr [.str "a", .str "b"])]).2).1
      = [⟨"f", .undef⟩, ⟨"f", .undef⟩] ∧
    [Descriptor.mk "f" (.str "a"), ⟨"f", .str "b"⟩] ≠ [⟨"f", .undef⟩, ⟨"f", .undef⟩] := by
  refine ⟨rfl, rfl, ?_⟩
  intro h
  simp at h

/-- C7 counterexample: the operation head invoked with the numeric
argument 0 (a genuine argument, neither an absent value nor a boolean
flag) is still extracted with expression false, because the code treats
every falsy argument value like a boolean flag. -/
theorem expression_falsy_argument_cex :
    (expression [("head", JSVal.num 0)] "head").1 = JSVal.bool false ∧
    argvGet [("head", JSVal.num 0)] "head" = JSVal.num 0 ∧
    JSVal.num 0 ≠ JSVal.bool true ∧
    JSVal.num 0 ≠ JSVal.undef :=
  ⟨rfl, rfl, fun h => JSVal.noConfusion h, fun h => JSVal.noConfusion h⟩

/-- C7 as amended: for a non-array argument value, the extracted
expression is false exactly when the value is falsy (absent, boolean
false, 0, empty string) or is literally true; an operation invoked with a
truthy argument carries that argument as its expression. -/
theorem expression_false_iff_falsy_or_true (argv : Argv) (opt : String)
    (h : ∀ l, argvGet argv opt ≠ JSVal.arr l) :
    ((expression argv opt).1 = JSVal.bool false
        ↔ (jsFalsy (argvGet argv opt) = true ∨ argvGet argv opt = JSVal.bool true)) ∧
    (jsFalsy (argvGet argv opt) = false → argvGet argv opt ≠ JSVal.bool true →
      (expression argv opt).1 = argvGet argv opt) := by
  simp only [expression]
  cases hv : argvGet argv opt with
  | undef => simp [jsFalsy]
  | bool b => cases b <;> simp [jsFalsy]
  | num n => by_cases h0 : n = 0 <;> simp [jsFalsy, h0]
  | str s => by_cases h0 : s = "" <;> simp [jsFalsy, h0]
  | arr es => exact absurd hv (h es)

/-- Witness for the amended C7: a string argument passes through as the
expression. -/
theorem expression_false_iff_falsy_or_true_inst :
    (expression [("f", JSVal.str "x")] "f").1 = argvGet [("f", JSVal.str "x")] "f" :=
  (expression_false_iff_falsy_or_true [("f", JSVal.str "x")] "f"
      (fun _ h => JSVal.noConfusion h)).2 rfl (fun h => JSVal.noConfusion h)

theorem extractOperations_repeat_binding (toks : List String) :
    ∀ (argv : Argv) (o : String) (es : List JSVal), argvGet argv o = .arr es →
    (((extractOperations toks argv).1).filter (fun d => d.opt == o)).map Descriptor.expr
      = (List.range (((toks.filter (fun t => isOptionToken t)).map stripDashes).count o)).map
          (fun i => es.getD i .undef) := by
  induction toks with
  | nil => intro argv o es h; rfl
  | cons tok rest ih =>
    intro argv o es h
    by_cases ht : isOptionToken tok = true
    · by_cases ho : stripDashes tok = o
      · subst ho
        cases es with
        | nil =>
          have hx : expression argv (stripDashes tok) = (.undef, argv) := by
            simp [expression, h, jsFalsy]
          simp only [extractOperations, ht, if_true, hx]
          simp [List.filter_cons, List.count_cons, ih argv _ [] h, ht,
            List.range_succ_eq_map, List.map_map, List.getD, List.replicate_succ]
          rw [show ((fun _ : Nat => JSVal.undef) ∘ Nat.succ) = (fun _ : Nat => JSVal.undef)
            from rfl]
          simp [List.map_const', List.length_range]
        | cons e es1 =>
          have hx : expression argv (stripDashes tok)
              = (e, argvSet argv (stripDashes tok) (.arr es1)) := by
            simp [expression, h, jsFalsy]
          have h1 : argvGet (argvSet argv (stripDashes tok) (.arr es1)) (stripDashes tok)
              = .arr es1 := by
            simp [argvGet_argvSet]
          simp only [extractOperations, ht, if_true, hx]
          simp [List.filter_cons, List.count_cons, ih _ _ es1 h1, ht,
            List.range_succ_eq_map, List.map_map, List.getD_cons_zero, List.getD_cons_succ,
            List.getElem?_cons_zero, List.getElem?_cons_succ]
      · have h1 : argvGet (expression argv (stripDashes tok)).2 o = .arr es :=
          (expression_snd_get argv (stripDashes tok) o ho).trans h
        have ho1 : ¬ o = stripDashes tok := fun hh => ho hh.symm
        cases hE : expression argv (stripDashes tok) with
        | mk ex argv1 =>
          rw [hE] at h1
          simp only [extractOperations, ht, if_true, hE]
          simp [List.filter_cons, List.count_cons, ho, ho1, ht, ih argv1 o es h1]
    · simp [extractOperations, ht, List.filter_cons, ih argv o es h]

/-- C2: pipeline extraction preserves the command-line occurrence order of
the flags (the descriptor names are the dash-stripped dash-initial tokens
in order), and when a name repeats, its occurrences consume the array of
arguments collected for that name one by one in encounter order (missing
positions yield an undefined expression). -/
theorem extractOperations_encounter_order (toks : List String) (argv : Argv)
    (o : String) (es : List JSVal) (h : argvGet argv o = .arr es) :
    ((extractOperations toks argv).1).map Descriptor.opt
      = (toks.filter (fun t => isOptionToken t)).map stripDashes ∧
    (((extractOperations toks argv).1).filter (fun d => d.opt == o)).map Descriptor.expr
      = (List.range (((toks.filter (fun t => isOptionToken t)).map stripDashes).count o)).map
          (fun i => es.getD i .undef) :=
  ⟨extractOperations_names toks argv, extractOperations_repeat_binding toks argv o es h⟩

/-- Witness for C2: two occurrences of the f flag bind to the first and the
second collected argument, in order. -/
theorem extractOperations_encounter_order_inst :
    (((extractOperations ["node", "jop", "-f", "x", "-f", "y"]
          [("f", JSVal.arr [.str "x", .str "y"])]).1).filter
        (fun d => d.opt == "f")).map Descriptor.expr
      = [JSVal.str "x", JSVal.str "y"] :=
  ((extractOperations_encounter_order ["node", "jop", "-f", "x", "-f", "y"]
      [("f", JSVal.arr [.str "x", .str "y"])] "f" [.str "x", .str "y"] rfl).2).trans (by rfl)

theorem runPipeline_append (env : Env) (l1 l2 : List OpDesc) : ∀ v : Value,
    runPipeline env v (l1 ++ l2)
      = Except.bind (runPipeline env v l1) (fun w => runPipeline env w l2) := by
  induction l1 with
  | nil => intro v; rfl
  | cons d rest ih =>
    intro v
    simp only [List.cons_append, runPipeline]
    cases applyOp env v d with
    | error er => rfl
    | ok v1 => exact ih v1

/-- C1: processing is the left-to-right composition of the operations over
the parsed value: the fold splits over concatenation of pipelines, and for
a two-operation pipeline of known operations the result is exactly the
second operation applied to the result of the first, each applied once and
in declared order. -/
theorem processContent_composes (env : Env) (t : String) (dbg : Bool)
    (a b : OpDesc) (fa fb : Operation) (v : Value)
    (hv : parseJson t = .ok v)
    (ha : lookupOp a.name = some fa) (hb : lookupOp b.name = some fb) :
    (∀ ops1 ops2 : List OpDesc,
      processContent env t (ops1 ++ ops2) dbg
        = Except.bind (processContent env t ops1 dbg) (fun w => runPipeline env w ops2)) ∧
    processContent env t [a, b] dbg
      = Except.bind (fa env v a.expr) (fun w => fb env w b.expr) := by
  constructor
  · intro ops1 ops2
    simp only [processContent, hv, runPipeline_append]
  · simp only [processContent, hv, runPipeline, applyOp, ha, hb]
    cases fa env v a.expr with
    | error er => rfl
    | ok w => cases hfb : fb env w b.expr <;> simp [runPipeline, hfb, Except.bind]

/-- Witness for C1 at a concrete input and pipeline. -/
theorem processContent_composes_inst :
    processContent envId "[]" [⟨"count", none⟩, ⟨"count", none⟩] false
      = Except.bind (countOp envId (.arr []) none) (fun w => countOp envId w none) :=
  (processContent_composes envId "[]" false ⟨"count", none⟩ ⟨"count", none⟩
      countOp countOp (.arr []) rfl rfl rfl).2

/-- C8: with the empty operation list, processing returns the parsed value
unchanged (identity law of the fold). -/
theorem processContent_empty_identity (env : Env) (t : String) (dbg : Bool)
    (v : Value) (hv : parseJson t = .ok v) :
    processContent env t [] dbg = .ok v := by
  simp only [processContent, hv, runPipeline]

/-- Witness for C8. -/
theorem processContent_empty_identity_inst :
    processContent envId "null" [] false = .ok .null :=
  processContent_empty_identity envId "null" false .null rfl

/-- C3: when processing fails (parse failure, unknown operation, or any
operation or expression failure), the end handler prints no output value,
reports the single error message on the error channel, and exits with a
non-zero status. -/
theorem onEnd_failure_no_output (env : Env) (t : String) (ops : List OpDesc)
    (dbg : Bool) (er : Err) (he : processContent env t ops dbg = .error er) :
    onEnd env t ops dbg
      = { printed := none, errorMsg := some er.toMessage, exitCode := 1 } ∧
    (onEnd env t ops dbg).exitCode ≠ 0 := by
  refine ⟨?_, ?_⟩ <;> simp [onEnd, he]

/-- Witness for C3: malformed input. -/
theorem onEnd_failure_no_output_inst :
    onEnd envId "\x7b" [] false
      = { printed := none,
          errorMsg := some (Err.parseError "expected string key").toMessage,
          exitCode := 1 } ∧
    (onEnd envId "\x7b" [] false).exitCode ≠ 0 :=
  onEnd_failure_no_output envId "\x7b" [] false (.parseError "expected string key") rfl

/-- C6: head and tail return the first (respectively last) 5 elements when
invoked without an expression, and the first (respectively last) N
elements when the expression reads as the number N. -/
theorem headTail_defaults (env : Env) (xs : List Value) :
    headOp env (.arr xs) none = .ok (.arr (xs.take 5)) ∧
    tailOp env (.arr xs) none = .ok (.arr (xs.drop (xs.length - 5))) ∧
    (∀ (s : String) (n : Nat), toNatDigits s = some n →
      headOp env (.arr xs) (some s) = .ok (.arr (xs.take n)) ∧
      tailOp env (.arr xs) (some s) = .ok (.arr (xs.drop (xs.length - n))) ∧
      (xs.take n).length = min n xs.length ∧
      (xs.drop (xs.length - n)).length = min n xs.length) := by
  refine ⟨rfl, rfl, ?_⟩
  intro s n hs
  refine ⟨?_, ?_, ?_, ?_⟩
  · simp [headOp, opSize, hs]
  · simp [tailOp, opSize, hs]
  · simp [List.length_take]
  · simp [List.length_drop]
    omega

/-- Witness for C6. -/
theorem headTail_defaults_inst :
    headOp envId (.arr [.num 1, .num 2, .num 3, .num 4, .num 5, .num 6]) none
      = .ok (.arr ([Value.num 1, .num 2, .num 3, .num 4, .num 5, .num 6].take 5)) ∧
    tailOp envId (.arr [.num 1, .num 2, .num 3, .num 4, .num 5, .num 6]) (some "2")
      = .ok (.arr ([Value.num 1, .num 2, .num 3, .num 4, .num 5, .num 6].drop
          ([Value.num 1, .num 2, .num 3, .num 4, .num 5, .num 6].length - 2))) :=
  ⟨(headTail_defaults envId [.num 1, .num 2, .num 3, .num 4, .num 5, .num 6]).1,
   ((headTail_defaults envId [.num 1, .num 2, .num 3, .num 4, .num 5, .num 6]).2.2
      "2" 2 rfl).2.1⟩

theorem perm_getD_eraseIdx {α : Type} (d : α) : ∀ (l : List α) (i : Nat), i < l.length →
    List.Perm (l.getD i d :: l.eraseIdx i) l := by
  intro l
  induction l with
  | nil => intro i hi; simp at hi
  | cons x t ih =>
    intro i hi
    cases i with
    | zero => simp [List.getD]
    | succ j =>
      have hj : j < t.length := by simpa using hi
      have h1 := ih j hj
      have hswap : List.Perm (t.getD j d :: x :: t.eraseIdx j)
          (x :: t.getD j d :: t.eraseIdx j) :=
        List.Perm.swap x (t.getD j d) (t.eraseIdx j)
      have h2 : List.Perm (x :: t.getD j d :: t.eraseIdx j) (x :: t) :=
        List.Perm.cons x h1
      simpa [List.getD_cons_succ, List.eraseIdx_cons_succ] using hswap.trans h2

theorem sampleTake_subperm (pick : Nat → Nat) : ∀ (n : Nat) (xs : List Value),
    List.Subperm (sampleTake pick n xs) xs := by
  intro n
  induction n with
  | zero =>
    intro xs
    simp only [sampleTake]
    exact List.nil_subperm
  | succ k ih =>
    intro xs
    cases xs with
    | nil =>
      simp only [sampleTake]
      exact List.nil_subperm
    | cons x t =>
      simp only [sampleTake]
      have hlen : 0 < (x :: t).length := by simp
      have hi : pick k % (x :: t).length < (x :: t).length := Nat.mod_lt _ hlen
      have hperm := perm_getD_eraseIdx x (x :: t) (pick k % (x :: t).length) hi
      have hsub := ih ((x :: t).eraseIdx (pick k % (x :: t).length))
      have h1 := (List.subperm_cons ((x :: t).getD (pick k % (x :: t).length) x)).2 hsub
      exact h1.trans hperm.subperm

theorem sampleTake_length (pick : Nat → Nat) : ∀ (n : Nat) (xs : List Value),
    n ≤ xs.length → (sampleTake pick n xs).length = n := by
  intro n
  induction n with
  | zero => intro xs h; rfl
  | succ k ih =>
    intro xs h
    cases xs with
    | nil => simp at h
    | cons x t =>
      have hlen : 0 < (x :: t).length := by simp
      have hi : pick k % (x :: t).length < (x :: t).length := Nat.mod_lt _ hlen
      have he : ((x :: t).eraseIdx (pick k % (x :: t).length)).length + 1 = (x :: t).length :=
        List.length_eraseIdx_add_one hi
      have hk : k ≤ ((x :: t).eraseIdx (pick k % (x :: t).length)).length := by
        omega
      show ((x :: t).getD (pick k % (x :: t).length) x
        :: sampleTake pick k ((x :: t).eraseIdx (pick k % (x :: t).length))).length = k + 1
      rw [List.length_cons, ih _ hk]

/-- C4: sample with size N fails with ArgumentError when N exceeds the
population size; otherwise it returns exactly N elements drawn from the
input without replacement (a sub-permutation of the input); without an
expression N defaults to 2. -/
theorem sampleOp_bounds (env : Env) (e : Option String) (xs : List Value) (n : Nat)
    (hn : opSize "sample" 2 e = .ok n) :
    (e = none → n = 2) ∧
    (xs.length < n → sampleOp env (.arr xs) e = .error (.argumentError "sample")) ∧
    (n ≤ xs.length → ∃ ys : List Value,
      sampleOp env (.arr xs) e = .ok (.arr ys) ∧ ys.length = n ∧ List.Subperm ys xs) := by
  refine ⟨?_, ?_, ?_⟩
  · intro he
    subst he
    simp [opSize] at hn
    omega
  · intro hlt
    simp [sampleOp, hn, hlt]
  · intro hle
    refine ⟨sampleTake env.pick n xs, ?_, sampleTake_length env.pick n xs hle,
      sampleTake_subperm env.pick n xs⟩
    have hng : ¬ n > xs.length := by omega
    simp [sampleOp, hn, hng]

/-- Witness for C4: the default sample size on a three-element input. -/
theorem sampleOp_bounds_inst :
    ∃ ys : List Value,
      sampleOp envId (.arr [.num 1, .num 2, .num 3]) none = .ok (.arr ys) ∧
      ys.length = 2 ∧ List.Subperm ys [Value.num 1, .num 2, .num 3] :=
  (sampleOp_bounds envId none [.num 1, .num 2, .num 3] 2 rfl).2.2 (by decide)

theorem selectBy_mem (better : Int → Int → Bool) : ∀ (l : List (Value × Int)) (b : Value × Int),
    selectBy better b l ∈ b :: l := by
  intro l
  induction l with
  | nil => intro b; simp [selectBy]
  | cons p rest ih =>
    intro b
    simp only [selectBy]
    by_cases hc : better p.2 b.2 = true
    · rw [if_pos hc]
      exact List.mem_cons_of_mem b (ih p)
    · rw [if_neg hc]
      rcases List.mem_cons.mp (ih b) with h | h
      · rw [h]
        exact List.mem_cons_self _ _
      · exact List.mem_cons_of_mem _ (List.mem_cons_of_mem _ h)

theorem selectBy_ltKey_le : ∀ (l : List (Value × Int)) (b : Value × Int),
    (selectBy ltKey b l).2 ≤ b.2 ∧ ∀ q ∈ l, (selectBy ltKey b l).2 ≤ q.2 := by
  intro l
  induction l with
  | nil => intro b; exact ⟨le_refl _, by simp⟩
  | cons p rest ih =>
    intro b
    simp only [selectBy]
    by_cases hc : ltKey p.2 b.2 = true
    · rw [if_pos hc]
      have hlt : p.2 < b.2 := by simpa [ltKey] using hc
      obtain ⟨h1, h2⟩ := ih p
      refine ⟨le_trans h1 (le_of_lt hlt), ?_⟩
      intro q hq
      rcases List.mem_cons.mp hq with h | h
      · subst h; exact h1
      · exact h2 q h
    · rw [if_neg hc]
      have hge : b.2 ≤ p.2 := by
        have hn : ¬ p.2 < b.2 := by simpa [ltKey] using hc
        omega
      obtain ⟨h1, h2⟩ := ih b
      refine ⟨h1, ?_⟩
      intro q hq
      rcases List.mem_cons.mp hq with h | h
      · subst h; exact le_trans h1 hge
      · exact h2 q h

theorem selectBy_gtKey_ge : ∀ (l : List (Value × Int)) (b : Value × Int),
    b.2 ≤ (selectBy gtKey b l).2 ∧ ∀ q ∈ l, q.2 ≤ (selectBy gtKey b l).2 := by
  intro l
  induction l with
  | nil => intro b; exact ⟨le_refl _, by simp⟩
  | cons p rest ih =>
    intro b
    simp only [selectBy]
    by_cases hc : gtKey p.2 b.2 = true
    · rw [if_pos hc]
      have hlt : b.2 < p.2 := by simpa [gtKey] using hc
      obtain ⟨h1, h2⟩ := ih p
      refine ⟨le_trans (le_of_lt hlt) h1, ?_⟩
      intro q hq
      rcases List.mem_cons.mp hq with h | h
      · subst h; exact h1
      · exact h2 q h
    · rw [if_neg hc]
      have hge : p.2 ≤ b.2 := by
        have hn : ¬ b.2 < p.2 := by simpa [gtKey] using hc
        omega
      obtain ⟨h1, h2⟩ := ih b
      refine ⟨h1, ?_⟩
      intro q hq
      rcases List.mem_cons.mp hq with h | h
      · subst h; exact le_trans hge h1
      · exact h2 q h

theorem selectBy_ltKey_find : ∀ (l : List (Value × Int)) (b : Value × Int),
    (b :: l).find? (fun q => decide (q.2 ≤ (selectBy ltKey b l).2))
      = some (selectBy ltKey b l) := by
  intro l
  induction l with
  | nil =>
    intro b
    simp [selectBy, List.find?_cons_of_pos]
  | cons p rest ih =>
    intro b
    by_cases hc : ltKey p.2 b.2 = true
    · have hsel : selectBy ltKey b (p :: rest) = selectBy ltKey p rest := by
        simp only [selectBy, if_pos hc]
      have hlt : p.2 < b.2 := by simpa [ltKey] using hc
      have hm : (selectBy ltKey p rest).2 ≤ p.2 := (selectBy_ltKey_le rest p).1
      rw [hsel]
      rw [List.find?_cons_of_neg _ (by simp; omega)]
      exact ih p
    · have hsel : selectBy ltKey b (p :: rest) = selectBy ltKey b rest := by
        simp only [selectBy, if_neg hc]
      have hge : b.2 ≤ p.2 := by
        have hn : ¬ p.2 < b.2 := by simpa [ltKey] using hc
        omega
      have hmb : (selectBy ltKey b rest).2 ≤ b.2 := (selectBy_ltKey_le rest b).1
      rw [hsel]
      have hprev := ih b
      by_cases hb : b.2 ≤ (selectBy ltKey b rest).2
      · rw [List.find?_cons_of_pos _ (by simpa using hb)] at hprev
        rw [List.find?_cons_of_pos _ (by simpa using hb)]
        exact hprev
      · rw [List.find?_cons_of_neg _ (by simpa using hb)] at hprev
        rw [List.find?_cons_of_neg _ (by simpa using hb)]
        rw [List.find?_cons_of_neg _ (by simp; omega)]
        exact hprev

theorem selectBy_gtKey_find : ∀ (l : List (Value × Int)) (b : Value × Int),
    (b :: l).find? (fun q => decide ((selectBy gtKey b l).2 ≤ q.2))
      = some (selectBy gtKey b l) := by
  intro l
  induction l with
  | nil =>
    intro b
    simp [selectBy, List.find?_cons_of_pos]
  | cons p rest ih =>
    intro b
    by_cases hc : gtKey p.2 b.2 = true
    · have hsel : selectBy gtKey b (p :: rest) = selectBy gtKey p rest := by
        simp only [selectBy, if_pos hc]
      have hlt : b.2 < p.2 := by simpa [gtKey] using hc
      have hm : p.2 ≤ (selectBy gtKey p rest).2 := (selectBy_gtKey_ge rest p).1
      rw [hsel]
      rw [List.find?_cons_of_neg _ (by simp; omega)]
      exact ih p
    · have hsel : selectBy gtKey b (p :: rest) = selectBy gtKey b rest := by
        simp only [selectBy, if_neg hc]
      have hge : p.2 ≤ b.2 := by
        have hn : ¬ b.2 < p.2 := by simpa [gtKey] using hc
        omega
      have hmb : b.2 ≤ (selectBy gtKey b rest).2 := (selectBy_gtKey_ge rest b).1
      rw [hsel]
      have hprev := ih b
      by_cases hb : (selectBy gtKey b rest).2 ≤ b.2
      · rw [List.find?_cons_of_pos _ (by simpa using hb)] at hprev
        rw [List.find?_cons_of_pos _ (by simpa using hb)]
        exact hprev
      · rw [List.find?_cons_of_neg _ (by simpa using hb)] at hprev
        rw [List.find?_cons_of_neg _ (by simpa using hb)]
        rw [List.find?_cons_of_neg _ (by simp; omega)]
        exact hprev

theorem evalAll_map_fst (env : Env) (e : String) : ∀ (items : List Value) (i : Nat)
    (ps : List (Value × Value)), evalAll env e items i = .ok ps → ps.map Prod.fst = items := by
  intro items
  induction items with
  | nil =>
    intro i ps h
    simp only [evalAll] at h
    injection h with h
    subst h
    rfl
  | cons x rest ih =>
    intro i ps h
    simp only [evalAll] at h
    cases hx : env.eval e x (.num i) with
    | error er => rw [hx] at h; exact absurd h (by simp)
    | ok r =>
      rw [hx] at h
      cases hr : evalAll env e rest (i + 1) with
      | error er => rw [hr] at h; exact absurd h (by simp)
      | ok ps1 =>
        rw [hr] at h
        injection h with h
        subst h
        simp [ih (i + 1) ps1 hr]

theorem numKeys_map_fst (op : String) : ∀ (ps : List (Value × Value)) (ks : List (Value × Int)),
    numKeys op ps = .ok ks → ks.map Prod.fst = ps.map Prod.fst := by
  intro ps
  induction ps with
  | nil =>
    intro ks h
    simp only [numKeys] at h
    injection h with h
    subst h
    rfl
  | cons p rest ih =>
    intro ks h
    obtain ⟨x, r⟩ := p
    cases r with
    | num n =>
      simp only [numKeys] at h
      cases hr : numKeys op rest with
      | error er => rw [hr] at h; exact absurd h (by simp)
      | ok ks1 =>
        rw [hr] at h
        injection h with h
        subst h
        simp [ih ks1 hr]
    | null => simp [numKeys] at h
    | bool b => simp [numKeys] at h
    | str s => simp [numKeys] at h
    | arr l => simp [numKeys] at h
    | obj l => simp [numKeys] at h

theorem numKeys_ok_any (op1 op2 : String) : ∀ (ps : List (Value × Value))
    (ks : List (Value × Int)), numKeys op1 ps = .ok ks → numKeys op2 ps = .ok ks := by
  intro ps
  induction ps with
  | nil =>
    intro ks h
    simpa [numKeys] using h
  | cons p rest ih =>
    intro ks h
    obtain ⟨x, r⟩ := p
    cases r with
    | num n =>
      simp only [numKeys] at h ⊢
      cases hr : numKeys op1 rest with
      | error er => rw [hr] at h; exact absurd h (by simp)
      | ok ks1 =>
        rw [hr] at h
        rw [ih ks1 hr]
        exact h
    | null => simp [numKeys] at h
    | bool b => simp [numKeys] at h
    | str s => simp [numKeys] at h
    | arr l => simp [numKeys] at h
    | obj l => simp [numKeys] at h

/-- C5: on a non-empty sequence whose per-element expression results are
all numeric, min returns the element whose result is numerically smallest
and max the element whose result is numerically largest; ties are broken
by first occurrence (the returned pair is the first in evaluation order
whose key attains the optimum, as the find? characterizations state). -/
theorem minmaxOp_first_extremum (env : Env) (src : String) (x : Value) (rest : List Value)
    (pairs : List (Value × Value)) (ks : List (Value × Int))
    (hp : evalAll env src (x :: rest) 0 = .ok pairs)
    (hk : numKeys "min" pairs = .ok ks) :
    ks.map Prod.fst = x :: rest ∧
    (∃ p : Value × Int, minmaxOp true env (.arr (x :: rest)) (some src) = .ok p.1 ∧
      p ∈ ks ∧ (∀ q ∈ ks, p.2 ≤ q.2) ∧
      ks.find? (fun q => decide (q.2 ≤ p.2)) = some p) ∧
    (∃ p : Value × Int, minmaxOp false env (.arr (x :: rest)) (some src) = .ok p.1 ∧
      p ∈ ks ∧ (∀ q ∈ ks, q.2 ≤ p.2) ∧
      ks.find? (fun q => decide (p.2 ≤ q.2)) = some p) := by
  have hfst : ks.map Prod.fst = x :: rest := by
    rw [numKeys_map_fst "min" pairs ks hk, evalAll_map_fst env src (x :: rest) 0 pairs hp]
  have hk2 : numKeys "max" pairs = .ok ks := numKeys_ok_any "min" "max" pairs ks hk
  refine ⟨hfst, ?_, ?_⟩
  · cases ks with
    | nil => simp at hfst
    | cons k0 kt =>
      refine ⟨selectBy ltKey k0 kt, ?_, selectBy_mem ltKey kt k0, ?_,
        selectBy_ltKey_find kt k0⟩
      · simp [minmaxOp, hp, hk]
      · intro q hq
        rcases List.mem_cons.mp hq with h | h
        · rw [h]; exact (selectBy_ltKey_le kt k0).1
        · exact (selectBy_ltKey_le kt k0).2 q h
  · cases ks with
    | nil => simp at hfst
    | cons k0 kt =>
      refine ⟨selectBy gtKey k0 kt, ?_, selectBy_mem gtKey kt k0, ?_,
        selectBy_gtKey_find kt k0⟩
      · simp [minmaxOp, hp, hk2]
      · intro q hq
        rcases List.mem_cons.mp hq with h | h
        · rw [h]; exact (selectBy_gtKey_ge kt k0).1
        · exact (selectBy_gtKey_ge kt k0).2 q h

/-- Witness for C5: on the sequence 3, 1, 1, 5 with the identity
expression, min selects the first 1 and max selects 5. -/
theorem minmaxOp_first_extremum_inst :
    ∃ p : Value × Int,
      minmaxOp true envId (.arr [.num 3, .num 1, .num 1, .num 5]) (some "it") = .ok p.1 ∧
      p ∈ ([(Value.num 3, 3), (.num 1, 1), (.num 1, 1), (.num 5, 5)] : List (Value × Int)) ∧
      (∀ q ∈ ([(Value.num 3, 3), (.num 1, 1), (.num 1, 1), (.num 5, 5)] : List (Value × Int)),
        p.2 ≤ q.2) ∧
      ([(Value.num 3, 3), (.num 1, 1), (.num 1, 1), (.num 5, 5)] : List (Value × Int)).find?
          (fun q => decide (q.2 ≤ p.2)) = some p :=
  (minmaxOp_first_extremum envId "it" (.num 3) [.num 1, .num 1, .num 5]
    [(.num 3, .num 3), (.num 1, .num 1), (.num 1, .num 1), (.num 5, .num 5)]
    [(.num 3, 3), (.num 1, 1), (.num 1, 1), (.num 5, 5)] rfl rfl).2.1

end Jop
